import Mathlib

/-!
Verification of the Position & Risk Management Engine of the Bot_Bybit
trading bot, shallowly embedded in Lean 4 over exact rational arithmetic.
Monetary quantities, prices, sizes and timestamps are modelled as `ℚ`.

The embedding follows `src/core/risk_manager.py` and
`src/core/position_manager.py` definition by definition; names mirror the
Python methods where Lean's lexer allows it.  Side strings are modelled as
the already-lowercase values `"long"` / `"short"` that every call site in
the source passes (the Python `side.lower()` is the identity on them).
Python `dict`s keyed by `f"{symbol}_{side}"` are modelled as association
lists in insertion order, matching Python dict iteration order.
-/

namespace BotBybit

/-- `math.floor(x * 10000) / 10000` from `RiskManager.calculate_position_size`:
rounding a quantity down to 4 decimal places. -/
def floor4 (x : ℚ) : ℚ := (Int.floor (x * 10000) : ℚ) / 10000

/-- The state of `RiskManager` (src/core/risk_manager.py): account balance,
the aggregate risk ledger `current_risk`, and the configured limits.
`max_risk_per_trade` and `max_risk_total` are stored already divided by 100,
exactly as `__init__` does. -/
structure RiskManager where
  balance : ℚ
  current_risk : ℚ
  max_risk_per_trade : ℚ
  max_risk_total : ℚ
  leverage : ℚ
deriving DecidableEq, Repr

/-- `RiskManager.calculate_position_size` (risk_manager.py lines 83-119).
`risk_percent` is the explicit argument (the Python default substitutes
`max_risk_per_trade`; callers that pass `None` are modelled by passing
`rm.max_risk_per_trade` here). -/
def calculate_position_size (rm : RiskManager) (entry_price stop_loss_price risk_percent : ℚ) : ℚ :=
  if entry_price ≤ 0 ∨ stop_loss_price ≤ 0 then 0
  else
    let price_diff := |entry_price - stop_loss_price|
    if price_diff = 0 then 0
    else
      let risk_amount := rm.balance * risk_percent
      let position_size := risk_amount * rm.leverage / price_diff
      floor4 position_size

/-- `RiskManager.check_position_size` (risk_manager.py lines 50-81). -/
def check_position_size (rm : RiskManager) (size price : ℚ) : Bool :=
  if rm.balance ≤ 0 then false
  else
    let position_value := size * price
    let max_position_value := rm.balance * rm.max_risk_per_trade * rm.leverage
    if max_position_value < position_value then false
    else if rm.balance * rm.max_risk_total < rm.current_risk + position_value / rm.leverage then false
    else true

/-- `size * |entry_price - stop_loss| / leverage`, the per-position risk
computed identically in `add_position_risk` and `remove_position_risk`. -/
def position_risk (size entry_price stop_loss leverage : ℚ) : ℚ :=
  size * |entry_price - stop_loss| / leverage

/-- `RiskManager.add_position_risk` (risk_manager.py lines 218-246):
`current_risk += size * |entry - stop| / leverage`. -/
def add_position_risk (rm : RiskManager) (size entry_price stop_loss : ℚ) : RiskManager :=
  { rm with current_risk := rm.current_risk + position_risk size entry_price stop_loss rm.leverage }

/-- `RiskManager.remove_position_risk` (risk_manager.py lines 248-276):
`current_risk = max(0, current_risk - size * |entry - stop| / leverage)`. -/
def remove_position_risk (rm : RiskManager) (size entry_price stop_loss : ℚ) : RiskManager :=
  { rm with current_risk := max 0 (rm.current_risk - position_risk size entry_price stop_loss rm.leverage) }

/-- Concrete risk-manager state used as the C1 counterexample: balance 0.01,
1% risk per trade, leverage 1. -/
def rmC1 : RiskManager := ⟨1/100, 0, 1/100, 5/100, 1⟩

/-- Concrete risk-manager state used in witnesses: balance 100, 1% per-trade
cap, 5% total cap, leverage 1. -/
def rmW : RiskManager := ⟨100, 0, 1/100, 5/100, 1⟩

/-- Concrete risk-manager state with a non-positive balance. -/
def rmNeg : RiskManager := ⟨-5, 0, 1/100, 5/100, 1⟩

/-! ### Sequences of risk-ledger operations (claim C2) -/

/-- One call to the risk ledger: `add_position_risk size entry stop` or
`remove_position_risk size entry stop`. -/
inductive RiskOp where
  | add : ℚ → ℚ → ℚ → RiskOp
  | remove : ℚ → ℚ → ℚ → RiskOp
deriving DecidableEq, Repr

/-- The `size` argument of a ledger call. -/
def RiskOp.size : RiskOp → ℚ
  | .add s _ _ => s
  | .remove s _ _ => s

/-- Apply one ledger call to the risk manager. -/
def applyRiskOp (rm : RiskManager) : RiskOp → RiskManager
  | .add s e sl => add_position_risk rm s e sl
  | .remove s e sl => remove_position_risk rm s e sl

/-- Run a sequence of ledger calls from a starting state. -/
def runRiskOps : RiskManager → List RiskOp → RiskManager
  | rm, [] => rm
  | rm, op :: ops => runRiskOps (applyRiskOp rm op) ops

/-- A tracked position as seen by the ledger: `(size, entry_price, stop_loss)`. -/
abbrev Entry := ℚ × ℚ × ℚ

/-- The risk contributed by one tracked position. -/
def entryRisk (lev : ℚ) (x : Entry) : ℚ := position_risk x.1 x.2.1 x.2.2 lev

/-- Total risk of a list of tracked positions. -/
def riskSum (lev : ℚ) (l : List Entry) : ℚ := (l.map (entryRisk lev)).sum

/-- Remove the first occurrence of an entry from the tracked list. -/
def removeFirst : List Entry → Entry → List Entry
  | [], _ => []
  | y :: l, x => if y = x then l else y :: removeFirst l x

/-- Effect of one ledger call on the set of currently-tracked positions. -/
def trackedStep (l : List Entry) : RiskOp → List Entry
  | .add s e sl => (s, e, sl) :: l
  | .remove s e sl => removeFirst l (s, e, sl)

/-- Tracked positions after a sequence of ledger calls. -/
def trackedRun : List Entry → List RiskOp → List Entry
  | l, [] => l
  | l, op :: ops => trackedRun (trackedStep l op) ops

/-- A sequence of ledger calls is well-matched when every `remove` names a
position that is currently tracked (i.e. removes decrement by the exact risk
previously added for that position). -/
def wfOps : List Entry → List RiskOp → Prop
  | _, [] => True
  | l, .add s e sl :: ops => wfOps ((s, e, sl) :: l) ops
  | l, .remove s e sl :: ops => (s, e, sl) ∈ l ∧ wfOps (removeFirst l (s, e, sl)) ops

/-! ### Positions and the position store (src/core/position_manager.py) -/

/-- One position record as stored in `self.positions` / `self.paper_positions`.
`stop_loss` / `take_profit` / `trailing_stop` are `none` when the Python dict
holds `None` for them or lacks the key (live records built by
`_update_positions` carry no such keys at all, so they are `none` there). -/
structure Position where
  symbol : String
  side : String
  size : ℚ
  entry_price : ℚ
  leverage : ℚ
  stop_loss : Option ℚ
  take_profit : Option ℚ
  trailing_stop : Option ℚ
  realized_pnl : ℚ
deriving DecidableEq, Repr

/-- The dict key `f"{symbol}_{side}"`. -/
def dictKey (symbol side : String) : String := symbol ++ "_" ++ side

/-- `dict.get(key)` on an association list. -/
def dictGet? (k : String) : List (String × Position) → Option Position
  | [] => none
  | (k', v) :: l => if k' = k then some v else dictGet? k l

/-- `dict[key] = value`: replace in place if the key exists, else append. -/
def dictInsert (k : String) (v : Position) : List (String × Position) → List (String × Position)
  | [] => [(k, v)]
  | (k', v') :: l => if k' = k then (k, v) :: l else (k', v') :: dictInsert k v l

/-- `del dict[key]`. -/
def dictErase (k : String) : List (String × Position) → List (String × Position)
  | [] => []
  | (k', v') :: l => if k' = k then l else (k', v') :: dictErase k l

/-- One entry of the venue's `get_positions` response list
(`positions_response['result']['list']`), with the fields the code reads. -/
structure VenuePos where
  symbol : String
  side : String
  size : ℚ
  entryPrice : ℚ
  leverage : ℚ
deriving DecidableEq, Repr

/-- How `_update_positions` turns one venue entry into a stored position
record (position_manager.py lines 82-101).  Note that the record carries no
`stop_loss` / `take_profit` keys. -/
def positionFromVenue (vp : VenuePos) : Position :=
  { symbol := vp.symbol
    side := if vp.side = "Buy" then "long" else "short"
    size := vp.size
    entry_price := vp.entryPrice
    leverage := vp.leverage
    stop_loss := none
    take_profit := none
    trailing_stop := none
    realized_pnl := 0 }

/-- The rebuilt position list: only venue entries with `float(size) > 0`. -/
def rebuildPositions (lst : List VenuePos) : List Position :=
  (lst.filter (fun vp => decide (0 < vp.size))).map positionFromVenue

/-- The cached position store: `self.positions` (as a list of records in
insertion order) and `self.last_update_time`. -/
structure PositionStore where
  positions : List Position
  last_update_time : ℚ
deriving DecidableEq, Repr

/-- `self.cache_update_interval` — 5 seconds. -/
def cache_update_interval : ℚ := 5

/-- `PositionManager._update_positions` (position_manager.py lines 59-112).
`venue` is the gateway response: `some lst` for `retCode == 0`, `none` for a
non-zero `retCode` (query made, previous cache kept).  Returns the new store
and whether a venue query was issued.  `last_update_time` is set whenever the
refresh branch runs, including paper mode and failed live queries. -/
def update_positions (interval : ℚ) (paper_trading : Bool) (paper_positions : List Position)
    (st : PositionStore) (force : Bool) (now : ℚ)
    (venue : Option (List VenuePos)) : PositionStore × Bool :=
  if force = true ∨ interval ≤ now - st.last_update_time then
    if paper_trading then (⟨paper_positions, now⟩, false)
    else
      match venue with
      | some lst => (⟨rebuildPositions lst, now⟩, true)
      | none => (⟨st.positions, now⟩, true)
  else (st, false)

/-- The position-selection logic of `close_position` (position_manager.py
lines 260-271): with a side, the dict lookup by `f"{symbol}_{side}"`; with
side omitted, the first position in dict order whose symbol matches. -/
def resolveCloseTarget (positions : List Position) (symbol : String) (side : Option String) :
    Option Position :=
  match side with
  | some s => positions.find? (fun p => p.symbol == symbol && p.side == s)
  | none => positions.find? (fun p => p.symbol == symbol)

/-! ### Paper trading (position_manager.py lines 743-945) -/

/-- Paper-mode state: `self.paper_positions` and `self.paper_balance`. -/
structure PaperState where
  positions : List (String × Position)
  balance : ℚ
deriving DecidableEq, Repr

/-- The result dict returned by `_close_paper_position` (the fields the
claims are about). -/
structure CloseResult where
  side : String
  size : ℚ
  close_price : ℚ
  pnl : ℚ
deriving DecidableEq, Repr

/-- `PositionManager._open_paper_position` (lines 743-809): create the record
and store it under `f"{symbol}_{side}"`.  `leverage` is the configured
`risk_management.leverage`. -/
def open_paper_position (st : PaperState) (symbol side : String)
    (size entry_price leverage : ℚ) (stop_loss take_profit : Option ℚ) : PaperState :=
  let key := dictKey symbol side
  let position : Position :=
    { symbol := symbol, side := side, size := size, entry_price := entry_price,
      leverage := leverage, stop_loss := stop_loss, take_profit := take_profit,
      trailing_stop := none, realized_pnl := 0 }
  { st with positions := dictInsert key position st.positions }

/-- `PositionManager._close_paper_position` (lines 811-886).  `ticker` is the
`last_price` of the ticker query, `none` when the query fails (then the
close price falls back to the stored `entry_price`). -/
def close_paper_position (st : PaperState) (symbol side : String)
    (size percentage : ℚ) (ticker : Option ℚ) : Option CloseResult × PaperState :=
  let key := dictKey symbol side
  match dictGet? key st.positions with
  | none => (none, st)
  | some position =>
    let close_price := match ticker with
      | some last_price => last_price
      | none => position.entry_price
    let pnl0 := if side = "long"
      then (close_price - position.entry_price) * size
      else (position.entry_price - close_price) * size
    let pnl := pnl0 * position.leverage
    let position' := { position with
      size := position.size - size
      realized_pnl := position.realized_pnl + pnl }
    let positions' := if position'.size ≤ 0 ∨ 100 ≤ percentage
      then dictErase key st.positions
      else dictInsert key position' st.positions
    (some ⟨side, size, close_price, pnl⟩, ⟨positions', st.balance + pnl⟩)

/-- `PositionManager.close_position` in paper mode (lines 244-292): refresh
makes `self.positions` the paper map, the target is resolved (possibly with
side omitted), the close size is `position.size * percentage / 100`, and
`_close_paper_position` runs. -/
def close_position_paper (st : PaperState) (symbol : String) (side : Option String)
    (percentage : ℚ) (ticker : Option ℚ) : Option CloseResult × PaperState :=
  match resolveCloseTarget (st.positions.map Prod.snd) symbol side with
  | none => (none, st)
  | some position =>
    close_paper_position st symbol position.side (position.size * percentage / 100)
      percentage ticker

/-- `PositionManager._modify_paper_position` (lines 888-945): each supplied
(non-`None`) field overwrites the stored one; unsupplied fields are left
as they are. -/
def modify_paper_position (st : PaperState) (symbol side : String)
    (stop_loss take_profit trailing_stop : Option ℚ) : Option Position × PaperState :=
  let key := dictKey symbol side
  match dictGet? key st.positions with
  | none => (none, st)
  | some position =>
    let position' : Position :=
      { position with
        stop_loss := match stop_loss with | some v => some v | none => position.stop_loss
        take_profit := match take_profit with | some v => some v | none => position.take_profit
        trailing_stop := match trailing_stop with | some v => some v | none => position.trailing_stop }
    (some position', { st with positions := dictInsert key position' st.positions })

/-! ### Live-mode conditional orders and risk update on close -/

/-- A reduce-only conditional order at the venue, as placed by
`_set_stop_loss_take_profit` (`stopOrderType` is `"StopLoss"`,
`"TakeProfit"` or `"TrailingStop"`). -/
structure StopOrder where
  stopOrderType : String
  triggerPrice : ℚ
deriving DecidableEq, Repr

/-- The orders `_set_stop_loss_take_profit` (lines 530-640) places: one per
supplied (non-`None`) field, none for unsupplied fields. -/
def set_stop_loss_take_profit_orders (stop_loss take_profit trailing_stop : Option ℚ) :
    List StopOrder :=
  (match stop_loss with | some v => [⟨"StopLoss", v⟩] | none => [])
  ++ (match take_profit with | some v => [⟨"TakeProfit", v⟩] | none => [])
  ++ (match trailing_stop with | some v => [⟨"TrailingStop", v⟩] | none => [])

/-- Net effect of live-mode `modify_position` (lines 348-415) on the symbol's
open conditional orders, with all cancellations succeeding:
`_cancel_stop_orders` cancels every existing stop order of the symbol, then
`_set_stop_loss_take_profit` places fresh orders for the supplied fields
only — whatever stood in `orders` is gone. -/
def modify_position_live_orders (orders : List StopOrder)
    (stop_loss take_profit trailing_stop : Option ℚ) : List StopOrder :=
  set_stop_loss_take_profit_orders stop_loss take_profit trailing_stop

/-- The risk-ledger step of a successful live `close_position` (lines
304-318): `remove_position_risk` runs only when the stored record has truthy
`entry_price` and `stop_loss` (`if position.get('entry_price') and
position.get('stop_loss')`). -/
def close_risk_update (rm : RiskManager) (position : Position) (size : ℚ) : RiskManager :=
  if position.entry_price ≠ 0 ∧ position.stop_loss.getD 0 ≠ 0 then
    remove_position_risk rm size position.entry_price (position.stop_loss.getD 0)
  else rm

/-! ### Trailing stop (position_manager.py lines 438-493) -/

/-- `PositionManager._check_trailing_stop` as a function from the stored
`stop_loss` field to its new value.  `trailing_stop_activation` and
`trailing_stop_callback` are the raw configured percentages (divided by 100
at use, as in the code).  A `none` stop models a stored `None`: the Python
comparison `new_stop > None` raises `TypeError`, which the method's
`except` swallows, leaving the stop unchanged. -/
def check_trailing_stop (trailing_stop_activation trailing_stop_callback : ℚ)
    (side : String) (entry_price : ℚ) (stop_loss : Option ℚ) (current_price : ℚ) :
    Option ℚ :=
  let activation_percent := trailing_stop_activation / 100
  let callback_percent := trailing_stop_callback / 100
  if side = "long" then
    let profit_percent := (current_price - entry_price) / entry_price
    if activation_percent ≤ profit_percent then
      let new_stop := current_price * (1 - callback_percent)
      match stop_loss with
      | some current_stop => if current_stop < new_stop then some new_stop else some current_stop
      | none => none
    else stop_loss
  else if side = "short" then
    let profit_percent := (entry_price - current_price) / entry_price
    if activation_percent ≤ profit_percent then
      let new_stop := current_price * (1 + callback_percent)
      match stop_loss with
      | some current_stop => if new_stop < current_stop then some new_stop else some current_stop
      | none => none
    else stop_loss
  else stop_loss

/-- Iterate the trailing-stop evaluation over a price path. -/
def trail_run (a c : ℚ) (side : String) (entry_price : ℚ) :
    Option ℚ → List ℚ → Option ℚ
  | stop, [] => stop
  | stop, price :: prices =>
      trail_run a c side entry_price
        (check_trailing_stop a c side entry_price stop price) prices

/-- Pointwise order on optional stops (a `none` stop never changes). -/
def stopLE : Option ℚ → Option ℚ → Prop
  | none, none => True
  | some a, some b => a ≤ b
  | _, _ => False

/-! ### Concrete states used by counterexamples and witnesses -/

/-- A long BTCUSDT position: size 1, entry 100, leverage 1, stop 95. -/
def posLongEx : Position := ⟨"BTCUSDT", "long", 1, 100, 1, some 95, none, none, 0⟩

/-- A short BTCUSDT position: size 2, entry 101, leverage 1, stop 105. -/
def posShortEx : Position := ⟨"BTCUSDT", "short", 2, 101, 1, some 105, none, none, 0⟩

/-- Paper store holding both sides of BTCUSDT (long inserted first). -/
def paperStC3 : PaperState :=
  ⟨[(dictKey "BTCUSDT" "long", posLongEx), (dictKey "BTCUSDT" "short", posShortEx)], 1000⟩

/-- A venue response with one Buy position of size 1 at entry 100. -/
def venueC4 : List VenuePos := [⟨"BTCUSDT", "Buy", 1, 100, 10⟩]

/-- Risk manager carrying 7 units of tracked risk, leverage 10. -/
def rmC4 : RiskManager := ⟨1000, 7, 1/100, 5/100, 10⟩

/-- An empty position store whose last refresh was at time 0. -/
def storeW : PositionStore := ⟨[], 0⟩

/-- Paper store holding one long BTCUSDT position. -/
def paperStW : PaperState := ⟨[(dictKey "BTCUSDT" "long", posLongEx)], 1000⟩

/-- Keys of an association list are pairwise distinct (always true of a
Python dict). -/
def keysUnique (l : List (String × Position)) : Prop := (l.map Prod.fst).Nodup

end BotBybit

namespace BotBybit

/-! ## Theorems -/

lemma floor4_nonneg {x : ℚ} (h : 0 ≤ x) : 0 ≤ floor4 x := by
  unfold floor4
  have : (0:ℤ) ≤ Int.floor (x * 10000) := Int.floor_nonneg.mpr (by positivity)
  positivity

lemma floor4_pos_iff (x : ℚ) : 0 < floor4 x ↔ 1 / 10000 ≤ x := by
  unfold floor4
  rw [lt_div_iff₀ (by norm_num : (0:ℚ) < 10000), zero_mul]
  rw [show ((0:ℚ) < (Int.floor (x * 10000) : ℚ)) ↔ (0 < Int.floor (x * 10000)) from Int.cast_pos]
  rw [Int.lt_iff_add_one_le, zero_add, Int.le_floor]
  rw [div_le_iff₀ (by norm_num : (0:ℚ) < 10000)]
  norm_num

/-- C1 (counterexample): with balance 0.01, risk_percent 0.01, leverage 1,
entry 3 and stop 1 — all strictly positive and entry ≠ stop — the computed
size `0.0001 * 1 / 2 = 0.00005` floors to 0, so `calculate_position_size`
is NOT strictly positive as the claim states. -/
theorem C1_strict_positivity_fails :
    (0:ℚ) < 3 ∧ (0:ℚ) < 1 ∧ (3:ℚ) ≠ 1
    ∧ 0 < rmC1.balance ∧ (0:ℚ) < 1/100 ∧ 0 < rmC1.leverage
    ∧ ¬ (0 < calculate_position_size rmC1 3 1 (1/100)) := by
  refine ⟨by norm_num, by norm_num, by norm_num, by norm_num [rmC1], by norm_num,
    by norm_num [rmC1, rmC1], ?_⟩
  have : calculate_position_size rmC1 3 1 (1/100) = 0 := by
    norm_num [calculate_position_size, floor4, rmC1]
  rw [this]
  norm_num

/-- C1 (amended): for positive, distinct entry and stop prices and positive
balance, risk_percent and leverage, `calculate_position_size` returns
`balance * risk_percent * leverage / |entry - stop|` floored to 4 decimal
places; the result is nonnegative, and it is strictly positive exactly when
the un-floored value is at least `10⁻⁴` (not unconditionally, as claimed);
the zero sentinel is returned whenever `entry ≤ 0`, `stop ≤ 0`, or
`entry = stop`. -/
theorem C1_calculate_position_size (rm : RiskManager) (e sl rp : ℚ)
    (he : 0 < e) (hsl : 0 < sl) (hne : e ≠ sl)
    (hb : 0 < rm.balance) (hrp : 0 < rp) (hlev : 0 < rm.leverage) :
    calculate_position_size rm e sl rp = floor4 (rm.balance * rp * rm.leverage / |e - sl|)
    ∧ 0 ≤ calculate_position_size rm e sl rp
    ∧ (0 < calculate_position_size rm e sl rp ↔
        1 / 10000 ≤ rm.balance * rp * rm.leverage / |e - sl|)
    ∧ (∀ e' sl' : ℚ, e' ≤ 0 ∨ sl' ≤ 0 ∨ e' = sl' →
        calculate_position_size rm e' sl' rp = 0) := by
  have hdiff : |e - sl| ≠ 0 := by
    simpa [abs_eq_zero, sub_eq_zero] using hne
  have hval : calculate_position_size rm e sl rp
      = floor4 (rm.balance * rp * rm.leverage / |e - sl|) := by
    unfold calculate_position_size
    rw [if_neg (by push_neg; exact ⟨he, hsl⟩), if_neg hdiff]
  have hx : 0 ≤ rm.balance * rp * rm.leverage / |e - sl| := by positivity
  refine ⟨hval, ?_, ?_, ?_⟩
  · rw [hval]; exact floor4_nonneg hx
  · rw [hval]; exact floor4_pos_iff _
  · intro e' sl' h
    unfold calculate_position_size
    rcases h with h | h | h
    · rw [if_pos (Or.inl h)]
    · rw [if_pos (Or.inr h)]
    · by_cases hbad : e' ≤ 0 ∨ sl' ≤ 0
      · rw [if_pos hbad]
      · rw [if_neg hbad, if_pos (by simp [h])]

/-- C1 (witness): the amended theorem applied at entry 110, stop 100,
risk_percent 0.01 on the balance-100 leverage-1 state: the size is exactly
`floor4 (100 * 0.01 * 1 / 10) = 0.1`. -/
theorem C1_calculate_position_size_witness :
    (0:ℚ) < 110 ∧ 0 < rmW.balance
    ∧ 0 ≤ calculate_position_size rmW 110 100 (1/100)
    ∧ calculate_position_size rmW 110 100 (1/100) = 1/10 := by
  have h := C1_calculate_position_size rmW 110 100 (1/100)
    (by norm_num) (by norm_num) (by norm_num)
    (by norm_num [rmW]) (by norm_num) (by norm_num [rmW])
  exact ⟨by norm_num, by norm_num [rmW], h.2.1,
    by norm_num [calculate_position_size, floor4, rmW]⟩

/-- C6: `check_position_size` returns false whenever balance ≤ 0; false
whenever the notional `size * price` exceeds `balance * max_risk_per_trade *
leverage` (independently of the portfolio cap); false whenever
`current_risk + size * price / leverage` exceeds `balance * max_risk_total`;
and true exactly when all three checks pass. -/
theorem C6_check_position_size (rm : RiskManager) (size price : ℚ)
    (hlev : 0 < rm.leverage) :
    (rm.balance ≤ 0 → check_position_size rm size price = false)
    ∧ (rm.balance * rm.max_risk_per_trade * rm.leverage < size * price →
        check_position_size rm size price = false)
    ∧ (rm.balance * rm.max_risk_total < rm.current_risk + size * price / rm.leverage →
        check_position_size rm size price = false)
    ∧ (check_position_size rm size price = true ↔
        0 < rm.balance
        ∧ size * price ≤ rm.balance * rm.max_risk_per_trade * rm.leverage
        ∧ rm.current_risk + size * price / rm.leverage ≤ rm.balance * rm.max_risk_total) := by
  unfold check_position_size
  split_ifs <;> simp_all

/-- C6 (witness): applied to the negative-balance state: the per-trade cap
`-5 * 0.01 * 1 = -0.05` is exceeded by notional `1 * 10 = 10`, and the check
indeed returns false. -/
theorem C6_check_position_size_witness :
    rmNeg.balance * rmNeg.max_risk_per_trade * rmNeg.leverage < (1:ℚ) * 10
    ∧ check_position_size rmNeg 1 10 = false := by
  refine ⟨by norm_num [rmNeg], ?_⟩
  exact (C6_check_position_size rmNeg 1 10 (by norm_num [rmNeg])).2.1 (by norm_num [rmNeg])

lemma entryRisk_nonneg {lev : ℚ} (hlev : 0 ≤ lev) {x : Entry} (hx : 0 ≤ x.1) :
    0 ≤ entryRisk lev x := by
  unfold entryRisk position_risk
  exact div_nonneg (mul_nonneg hx (abs_nonneg _)) hlev

lemma riskSum_nonneg {lev : ℚ} {l : List Entry} (h : ∀ x ∈ l, 0 ≤ entryRisk lev x) :
    0 ≤ riskSum lev l := by
  unfold riskSum
  apply List.sum_nonneg
  intro a ha
  rcases List.mem_map.mp ha with ⟨x, hx, rfl⟩
  exact h x hx

lemma mem_removeFirst {x y : Entry} : ∀ {l : List Entry}, x ∈ removeFirst l y → x ∈ l := by
  intro l
  induction l with
  | nil => simp [removeFirst]
  | cons z l ih =>
    simp only [removeFirst]
    split_ifs with hz
    · intro hx; exact List.mem_cons_of_mem _ hx
    · intro hx
      rcases List.mem_cons.mp hx with h | h
      · exact h ▸ List.mem_cons_self _ _
      · exact List.mem_cons_of_mem _ (ih h)

lemma riskSum_removeFirst (lev : ℚ) {x : Entry} : ∀ {l : List Entry}, x ∈ l →
    riskSum lev (removeFirst l x) = riskSum lev l - entryRisk lev x := by
  intro l
  induction l with
  | nil => simp
  | cons y l ih =>
    intro hmem
    by_cases hy : y = x
    · subst hy
      simp [removeFirst, riskSum]
    · have hx : x ∈ l := by
        rcases List.mem_cons.mp hmem with h | h
        · exact absurd h.symm hy
        · exact h
      simp only [removeFirst, if_neg hy, riskSum, List.map_cons, List.sum_cons]
      have := ih hx
      unfold riskSum at this
      rw [this]
      ring

lemma applyRiskOp_leverage (rm : RiskManager) (op : RiskOp) :
    (applyRiskOp rm op).leverage = rm.leverage := by
  cases op <;> rfl

lemma runRiskOps_current_risk_nonneg :
    ∀ (ops : List RiskOp) (rm : RiskManager), 0 ≤ rm.leverage → 0 ≤ rm.current_risk →
      (∀ op ∈ ops, 0 ≤ op.size) → 0 ≤ (runRiskOps rm ops).current_risk := by
  intro ops
  induction ops with
  | nil => intro rm _ hcr _; exact hcr
  | cons op ops ih =>
    intro rm hlev hcr hsz
    have hstep : 0 ≤ (applyRiskOp rm op).current_risk := by
      cases op with
      | add s e sl =>
        have hs : 0 ≤ s := hsz _ (List.mem_cons_self _ _)
        exact add_nonneg hcr (entryRisk_nonneg hlev (x := (s, e, sl)) hs)
      | remove s e sl => exact le_max_left 0 _
    have hlev' : 0 ≤ (applyRiskOp rm op).leverage := by
      rw [applyRiskOp_leverage]; exact hlev
    exact ih _ hlev' hstep (fun o ho => hsz o (List.mem_cons_of_mem _ ho))

lemma runRiskOps_tracked :
    ∀ (ops : List RiskOp) (rm : RiskManager) (l : List Entry),
      0 < rm.leverage →
      (∀ op ∈ ops, 0 ≤ op.size) →
      (∀ x ∈ l, 0 ≤ x.1) →
      wfOps l ops →
      rm.current_risk = riskSum rm.leverage l →
      (runRiskOps rm ops).current_risk = riskSum rm.leverage (trackedRun l ops) := by
  intro ops
  induction ops with
  | nil => intro rm l _ _ _ _ hcr; exact hcr
  | cons op ops ih =>
    intro rm l hlev hsz hl hwf hcr
    cases op with
    | add s e sl =>
      have hs : 0 ≤ s := hsz _ (List.mem_cons_self _ _)
      have hcr' : (add_position_risk rm s e sl).current_risk
          = riskSum rm.leverage ((s, e, sl) :: l) := by
        show rm.current_risk + position_risk s e sl rm.leverage
          = riskSum rm.leverage ((s, e, sl) :: l)
        rw [hcr]
        unfold riskSum entryRisk
        simp only [List.map_cons, List.sum_cons]
        ring
      exact ih (add_position_risk rm s e sl) ((s, e, sl) :: l) hlev
        (fun o ho => hsz o (List.mem_cons_of_mem _ ho))
        (by
          intro x hx
          rcases List.mem_cons.mp hx with h | h
          · rw [h]; exact hs
          · exact hl x h)
        hwf hcr'
    | remove s e sl =>
      rcases hwf with ⟨hmem, hwf'⟩
      have hrest : ∀ x ∈ removeFirst l (s, e, sl), 0 ≤ x.1 :=
        fun x hx => hl x (mem_removeFirst hx)
      have hsum : 0 ≤ riskSum rm.leverage (removeFirst l (s, e, sl)) :=
        riskSum_nonneg (fun x hx => entryRisk_nonneg hlev.le (hrest x hx))
      have hcr' : (remove_position_risk rm s e sl).current_risk
          = riskSum rm.leverage (removeFirst l (s, e, sl)) := by
        show max 0 (rm.current_risk - position_risk s e sl rm.leverage)
          = riskSum rm.leverage (removeFirst l (s, e, sl))
        rw [hcr, show position_risk s e sl rm.leverage = entryRisk rm.leverage (s, e, sl) from rfl,
          ← riskSum_removeFirst rm.leverage hmem]
        exact max_eq_right hsum
      exact ih (remove_position_risk rm s e sl) (removeFirst l (s, e, sl)) hlev
        (fun o ho => hsz o (List.mem_cons_of_mem _ ho)) hrest hwf' hcr'

/-- C2: starting from `current_risk = 0`, for every well-matched sequence of
`add_position_risk` / `remove_position_risk` calls (nonnegative sizes,
positive leverage), `current_risk` equals the sum of the per-position risks
`size * |entry - stop| / leverage` of the currently-tracked positions and
never goes negative; each `add` increases `current_risk` by exactly that
amount and each `remove` decreases it by the same amount, clamped at 0. -/
theorem C2_risk_ledger (rm : RiskManager) (ops : List RiskOp)
    (hlev : 0 < rm.leverage) (hzero : rm.current_risk = 0)
    (hsizes : ∀ op ∈ ops, 0 ≤ op.size) (hwf : wfOps [] ops) :
    (runRiskOps rm ops).current_risk = riskSum rm.leverage (trackedRun [] ops)
    ∧ 0 ≤ (runRiskOps rm ops).current_risk
    ∧ (∀ (rm' : RiskManager) (s e sl : ℚ),
        (add_position_risk rm' s e sl).current_risk
          = rm'.current_risk + position_risk s e sl rm'.leverage)
    ∧ (∀ (rm' : RiskManager) (s e sl : ℚ),
        (remove_position_risk rm' s e sl).current_risk
          = max 0 (rm'.current_risk - position_risk s e sl rm'.leverage)) :=
  ⟨runRiskOps_tracked ops rm [] hlev hsizes (by simp) hwf (by simp [hzero, riskSum]),
   runRiskOps_current_risk_nonneg ops rm hlev.le (le_of_eq hzero.symm) hsizes,
   fun _ _ _ _ => rfl, fun _ _ _ _ => rfl⟩

/-- C2 (witness): the ledger theorem applied to the concrete sequence
add (2, 100, 95), add (1, 50, 52), remove (2, 100, 95) on the balance-100
state: the final `current_risk` is the risk of the one remaining position,
`1 * |50 - 52| / 1 = 2`, and is nonnegative. -/
theorem C2_risk_ledger_witness :
    wfOps [] [RiskOp.add 2 100 95, RiskOp.add 1 50 52, RiskOp.remove 2 100 95]
    ∧ (runRiskOps rmW [RiskOp.add 2 100 95, RiskOp.add 1 50 52,
        RiskOp.remove 2 100 95]).current_risk
      = riskSum rmW.leverage (trackedRun []
          [RiskOp.add 2 100 95, RiskOp.add 1 50 52, RiskOp.remove 2 100 95])
    ∧ 0 ≤ (runRiskOps rmW [RiskOp.add 2 100 95, RiskOp.add 1 50 52,
        RiskOp.remove 2 100 95]).current_risk := by
  have h := C2_risk_ledger rmW
    [RiskOp.add 2 100 95, RiskOp.add 1 50 52, RiskOp.remove 2 100 95]
    (by norm_num [rmW]) (by norm_num [rmW])
    (by
      intro op hop
      simp only [List.mem_cons, List.not_mem_nil, or_false] at hop
      rcases hop with rfl | rfl | rfl <;> norm_num [RiskOp.size])
    (by simp [wfOps, removeFirst])
  exact ⟨by simp [wfOps, removeFirst], h.1, h.2.1⟩

/-- C3 (counterexample): with both a long and a short BTCUSDT position open
and `side` omitted, `close_position` does NOT fail with an ambiguity error:
it silently resolves to the first matching position in dict order (the
long), computes its close and returns a success result — P&L 5 from closing
the long at 105. -/
theorem C3_ambiguous_close_succeeds :
    posLongEx.symbol = "BTCUSDT" ∧ posShortEx.symbol = "BTCUSDT"
    ∧ posLongEx.side = "long" ∧ posShortEx.side = "short"
    ∧ (close_position_paper paperStC3 "BTCUSDT" none 100 (some 105)).1
        = some ⟨"long", 1, 105, 5⟩ := by
  refine ⟨by decide, by decide, by decide, by decide, ?_⟩
  norm_num [close_position_paper, paperStC3, resolveCloseTarget, posLongEx, posShortEx,
    close_paper_position, dictKey, dictGet?, dictErase, List.find?]

/-- C3 (amended): when `side` is omitted, `close_position` resolves to the
FIRST position in store (dict-insertion) order whose symbol matches —
regardless of how many sides are open, with no ambiguity error; in
particular when exactly one position exists for the symbol it resolves to
that one. -/
theorem C3_close_side_resolution (l1 l2 : List Position) (symbol : String) (p : Position)
    (h1 : ∀ q ∈ l1, q.symbol ≠ symbol) (hp : p.symbol = symbol) :
    resolveCloseTarget (l1 ++ p :: l2) symbol none = some p
    ∧ resolveCloseTarget [p] symbol none = some p := by
  have hfind : ∀ m2 : List Position, resolveCloseTarget (l1 ++ p :: m2) symbol none = some p := by
    intro m2
    unfold resolveCloseTarget
    induction l1 with
    | nil =>
      simp only [List.nil_append]
      exact List.find?_cons_of_pos _ (by simp [hp])
    | cons q l1 ih =>
      simp only [List.cons_append]
      rw [List.find?_cons_of_neg _ (by simp [h1 q (List.mem_cons_self _ _)])]
      exact ih (fun r hr => h1 r (List.mem_cons_of_mem _ hr))
  refine ⟨hfind l2, ?_⟩
  have h := hfind []
  rcases l1 with _ | ⟨q, l1⟩
  · simpa using h
  · unfold resolveCloseTarget
    exact List.find?_cons_of_pos _ (by simp [hp])

/-- C3 (witness of the amended claim): on the two-sided BTCUSDT store the
omitted-side close resolves to the long position, which was inserted
first. -/
theorem C3_close_side_resolution_witness :
    posLongEx.symbol = "BTCUSDT"
    ∧ resolveCloseTarget [posLongEx, posShortEx] "BTCUSDT" none = some posLongEx := by
  have h := C3_close_side_resolution [] [posShortEx] "BTCUSDT" posLongEx
    (by simp) (by decide)
  exact ⟨by decide, by simpa using h.1⟩

/-- C4: the risk-ledger decrement in live `close_position` is dead code —
every position record rebuilt from the venue by `_update_positions` lacks a
`stop_loss` key, so the guard `position.get('entry_price') and
position.get('stop_loss')` is always falsy and `remove_position_risk` is
never called: the risk manager is returned unchanged, contradicting the
claimed decrement by `close_size * |entry - stop| / leverage`. -/
theorem C4_live_close_never_decrements_risk (rm : RiskManager) (venue : List VenuePos)
    (p : Position) (hp : p ∈ rebuildPositions venue) (size : ℚ) :
    close_risk_update rm p size = rm := by
  have hsl : p.stop_loss = none := by
    rcases List.mem_map.mp hp with ⟨vp, _, rfl⟩
    rfl
  unfold close_risk_update
  rw [if_neg]
  rw [hsl]
  simp

/-- C4 (witness): the venue reports a Buy position (size 1, entry 100); the
rebuilt record is in the store, and closing it leaves `current_risk` at 7 —
no decrement happens. -/
theorem C4_live_close_never_decrements_risk_witness :
    positionFromVenue ⟨"BTCUSDT", "Buy", 1, 100, 10⟩ ∈ rebuildPositions venueC4
    ∧ close_risk_update rmC4 (positionFromVenue ⟨"BTCUSDT", "Buy", 1, 100, 10⟩) 1 = rmC4
    ∧ rmC4.current_risk = 7 := by
  refine ⟨by decide, ?_, by norm_num [rmC4]⟩
  exact C4_live_close_never_decrements_risk rmC4 venueC4 _ (by decide) 1

lemma stopLE_refl : ∀ s : Option ℚ, stopLE s s
  | none => trivial
  | some _ => le_refl _

lemma stopLE_trans : ∀ {a b c : Option ℚ}, stopLE a b → stopLE b c → stopLE a c
  | none, none, none, _, _ => trivial
  | some _, some _, some _, h1, h2 => le_trans h1 h2

lemma check_trailing_stop_long_mono (a c e : ℚ) (s : Option ℚ) (px : ℚ) :
    stopLE s (check_trailing_stop a c "long" e s px) := by
  simp only [check_trailing_stop, eq_self_iff_true, if_true]
  split_ifs with hact
  · cases s with
    | none => trivial
    | some v =>
      by_cases hlt : v < px * (1 - c / 100)
      · simp only [if_pos hlt]
        exact le_of_lt hlt
      · simp only [if_neg hlt]
        exact le_refl v
  · exact stopLE_refl s

lemma check_trailing_stop_short_mono (a c e : ℚ) (s : Option ℚ) (px : ℚ) :
    stopLE (check_trailing_stop a c "short" e s px) s := by
  simp only [check_trailing_stop, eq_self_iff_true]
  rw [if_neg (show ¬("short" : String) = "long" by decide)]
  simp only [if_true]
  split_ifs with hact
  · cases s with
    | none => trivial
    | some v =>
      by_cases hlt : px * (1 + c / 100) < v
      · simp only [if_pos hlt]
        exact le_of_lt hlt
      · simp only [if_neg hlt]
        exact le_refl v
  · exact stopLE_refl s

lemma trail_run_long_mono (a c e : ℚ) :
    ∀ (ps : List ℚ) (s : Option ℚ), stopLE s (trail_run a c "long" e s ps) := by
  intro ps
  induction ps with
  | nil => intro s; exact stopLE_refl s
  | cons px ps ih =>
    intro s
    exact stopLE_trans (check_trailing_stop_long_mono a c e s px)
      (ih (check_trailing_stop a c "long" e s px))

lemma trail_run_short_mono (a c e : ℚ) :
    ∀ (ps : List ℚ) (s : Option ℚ), stopLE (trail_run a c "short" e s ps) s := by
  intro ps
  induction ps with
  | nil => intro s; exact stopLE_refl s
  | cons px ps ih =>
    intro s
    exact stopLE_trans (ih (check_trailing_stop a c "short" e s px))
      (check_trailing_stop_short_mono a c e s px)

/-- C5: over every price path fed to `_check_trailing_stop` (for any
activation and callback settings and any open position, entry price > 0),
the stored stop of a long position only ever moves upward and that of a
short position only ever moves downward: the candidate `price * (1 -
callback)` (resp. `price * (1 + callback)`) is applied only when strictly
better than the current stop, so the stop never regresses. -/
theorem C5_trailing_stop_ratchet (a c e : ℚ) (he : 0 < e) (s : Option ℚ) (ps : List ℚ) :
    stopLE s (trail_run a c "long" e s ps)
    ∧ stopLE (trail_run a c "short" e s ps) s :=
  ⟨trail_run_long_mono a c e ps s, trail_run_short_mono a c e ps s⟩

/-- C5 (witness): entry 100, activation 1%, callback 1%, initial stop 95, on
the oscillating path 102, 105, 101, 110, 99 (crossing the activation
threshold in both directions): the long stop ratchets up to `110 * 0.99 =
108.9` and never regresses. -/
theorem C5_trailing_stop_ratchet_witness :
    (0:ℚ) < 100
    ∧ stopLE (some 95) (trail_run 1 1 "long" 100 (some 95) [102, 105, 101, 110, 99])
    ∧ trail_run 1 1 "long" 100 (some 95) [102, 105, 101, 110, 99] = some (1089/10) := by
  refine ⟨by norm_num, (C5_trailing_stop_ratchet 1 1 100 (by norm_num) (some 95)
    [102, 105, 101, 110, 99]).1, ?_⟩
  norm_num [trail_run, check_trailing_stop]

/-- C7: paper round-trip, long and short.  Opening a paper position (entry
`e`, size `s`, configured leverage `L`) and closing 100% of it at ticker
price `exit` returns P&L `(exit - e) * s * L` for long and `(e - exit) * s *
L` for short, adds exactly that P&L to the paper balance, and removes the
position from the store. -/
theorem C7_paper_round_trip (b : ℚ) (symbol : String) (e s L exit : ℚ)
    (sl tp : Option ℚ) (he : 0 < e) :
    (close_position_paper (open_paper_position ⟨[], b⟩ symbol "long" s e L sl tp)
        symbol (some "long") 100 (some exit)).1
      = some ⟨"long", s, exit, (exit - e) * s * L⟩
    ∧ (close_position_paper (open_paper_position ⟨[], b⟩ symbol "long" s e L sl tp)
        symbol (some "long") 100 (some exit)).2
      = ⟨[], b + (exit - e) * s * L⟩
    ∧ (close_position_paper (open_paper_position ⟨[], b⟩ symbol "short" s e L sl tp)
        symbol (some "short") 100 (some exit)).1
      = some ⟨"short", s, exit, (e - exit) * s * L⟩
    ∧ (close_position_paper (open_paper_position ⟨[], b⟩ symbol "short" s e L sl tp)
        symbol (some "short") 100 (some exit)).2
      = ⟨[], b + (e - exit) * s * L⟩ := by
  refine ⟨?_, ?_, ?_, ?_⟩ <;>
  · simp only [open_paper_position, close_position_paper, close_paper_position,
      resolveCloseTarget, dictInsert, dictGet?, dictErase, dictKey,
      List.map_cons, List.map_nil, List.find?, beq_self_eq_true, Bool.and_self,
      eq_self_iff_true, if_true]
    norm_num
    all_goals exact fun h => absurd h (by decide)

/-- C7 (witness): entry 100, size 1, leverage 1, close 100% at 110: P&L is
exactly 10, the balance goes from 1000 to 1010, and the store is empty. -/
theorem C7_paper_round_trip_witness :
    (0:ℚ) < 100
    ∧ (close_position_paper (open_paper_position ⟨[], 1000⟩ "BTCUSDT" "long" 1 100 1 none none)
        "BTCUSDT" (some "long") 100 (some 110)).1
      = some ⟨"long", 1, 110, 10⟩
    ∧ (close_position_paper (open_paper_position ⟨[], 1000⟩ "BTCUSDT" "long" 1 100 1 none none)
        "BTCUSDT" (some "long") 100 (some 110)).2
      = ⟨[], 1010⟩ := by
  have h := C7_paper_round_trip 1000 "BTCUSDT" 100 1 1 110 none none (by norm_num)
  refine ⟨by norm_num, ?_, ?_⟩
  · rw [h.1]; norm_num
  · rw [h.2.1]; norm_num

lemma dictGet?_insert_self (k : String) (v : Position) :
    ∀ l : List (String × Position), dictGet? k (dictInsert k v l) = some v := by
  intro l
  induction l with
  | nil => simp [dictInsert, dictGet?]
  | cons kv l ih =>
    rcases kv with ⟨k', v'⟩
    by_cases hk : k' = k
    · simp [dictInsert, dictGet?, hk]
    · simp only [dictInsert, if_neg hk, dictGet?]
      exact ih

lemma dictGet?_eq_none_of_not_mem (k : String) :
    ∀ l : List (String × Position), k ∉ l.map Prod.fst → dictGet? k l = none := by
  intro l
  induction l with
  | nil => intro _; rfl
  | cons kv l ih =>
    rcases kv with ⟨k', v'⟩
    intro hk
    simp only [List.map_cons, List.mem_cons] at hk
    push_neg at hk
    simp only [dictGet?]
    rw [if_neg (fun h => hk.1 h.symm)]
    exact ih hk.2

lemma dictGet?_erase_self (k : String) :
    ∀ l : List (String × Position), keysUnique l → dictGet? k (dictErase k l) = none := by
  intro l
  induction l with
  | nil => intro _; rfl
  | cons kv l ih =>
    rcases kv with ⟨k', v'⟩
    intro hu
    rcases List.nodup_cons.mp hu with ⟨hnot, hu'⟩
    by_cases hk : k' = k
    · simp only [dictErase, if_pos hk]
      exact dictGet?_eq_none_of_not_mem k l (hk ▸ hnot)
    · simp only [dictErase, if_neg hk, dictGet?]
      exact ih hu'

/-- C10: when the ticker query fails during a paper-mode close
(`ticker = none`), `_close_paper_position` falls back to closing at the
stored `entry_price`: the reported P&L is exactly 0, the paper balance is
unchanged, the close returns a success result, the position's size is still
reduced by the close size, and on a 100%-or-exhausting close the position
is deleted from the store. -/
theorem C10_paper_close_ticker_fallback (st : PaperState) (symbol side : String)
    (p : Position) (size percentage : ℚ)
    (hu : keysUnique st.positions)
    (hget : dictGet? (dictKey symbol side) st.positions = some p) :
    (close_paper_position st symbol side size percentage none).1
      = some ⟨side, size, p.entry_price, 0⟩
    ∧ (close_paper_position st symbol side size percentage none).2.balance = st.balance
    ∧ (p.size - size ≤ 0 ∨ 100 ≤ percentage →
        dictGet? (dictKey symbol side)
          (close_paper_position st symbol side size percentage none).2.positions = none)
    ∧ (¬ (p.size - size ≤ 0 ∨ 100 ≤ percentage) →
        dictGet? (dictKey symbol side)
          (close_paper_position st symbol side size percentage none).2.positions
        = some { p with size := p.size - size, realized_pnl := p.realized_pnl }) := by
  have hpnl : (if side = "long"
      then (p.entry_price - p.entry_price) * size
      else (p.entry_price - p.entry_price) * size) * p.leverage = 0 := by
    split_ifs <;> ring
  simp only [close_paper_position]
  rw [hget]
  dsimp only
  simp only [hpnl, add_zero]
  refine ⟨trivial, trivial, ?_, ?_⟩
  · intro hdel
    rw [if_pos hdel]
    exact dictGet?_erase_self _ st.positions hu
  · intro hdel
    rw [if_neg hdel]
    rw [dictGet?_insert_self]

/-- C10 (witness): a half-close (size 0.5, percentage 50) of the stored long
position with a failed ticker query: P&L 0, balance still 1000, and the
stored position's size is reduced to 0.5. -/
theorem C10_paper_close_ticker_fallback_witness :
    dictGet? (dictKey "BTCUSDT" "long") paperStW.positions = some posLongEx
    ∧ (close_paper_position paperStW "BTCUSDT" "long" (1/2) 50 none).1
      = some ⟨"long", 1/2, 100, 0⟩
    ∧ (close_paper_position paperStW "BTCUSDT" "long" (1/2) 50 none).2.balance = 1000
    ∧ dictGet? (dictKey "BTCUSDT" "long")
        (close_paper_position paperStW "BTCUSDT" "long" (1/2) 50 none).2.positions
      = some { posLongEx with size := 1/2 } := by
  have h := C10_paper_close_ticker_fallback paperStW "BTCUSDT" "long" posLongEx (1/2) 50
    (by simp [keysUnique, paperStW]) (by decide)
  refine ⟨by decide, ?_, ?_, ?_⟩
  · rw [h.1]; norm_num [posLongEx]
  · rw [h.2.1]; norm_num [paperStW]
  · have h4 := h.2.2.2 (by norm_num [posLongEx])
    rw [h4]
    norm_num [posLongEx]

/-- C8 (counterexample): in live mode, a position protected by a stop-loss
order at 95 and a take-profit order at 110 is modified with only
`stop_loss=96` supplied: `modify_position` cancels ALL existing conditional
orders and re-places only the supplied field, so the take-profit order that
existed before is gone afterwards — the unsupplied field was implicitly
cleared, contrary to the claim. -/
theorem C8_live_modify_clears_unsupplied :
    (([⟨"StopLoss", 95⟩, ⟨"TakeProfit", 110⟩] : List StopOrder).filter
        (fun o => o.stopOrderType == "TakeProfit")) = [⟨"TakeProfit", 110⟩]
    ∧ modify_position_live_orders [⟨"StopLoss", 95⟩, ⟨"TakeProfit", 110⟩] (some 96) none none
      = [⟨"StopLoss", 96⟩]
    ∧ ((modify_position_live_orders [⟨"StopLoss", 95⟩, ⟨"TakeProfit", 110⟩]
        (some 96) none none).filter (fun o => o.stopOrderType == "TakeProfit")) = [] := by
  refine ⟨?_, ?_, ?_⟩ <;>
    simp [modify_position_live_orders, set_stop_loss_take_profit_orders, List.filter]

/-- C8 (amended): in paper mode `modify_position` leaves every protective
field whose argument is `None` unchanged and sets each supplied field to its
new value, never touching size or entry price; in live mode, however, the
symbol's conditional orders after the call are exactly those of the supplied
fields — `_cancel_stop_orders` cancels everything and unsupplied fields are
NOT re-placed, so their venue-side protection is implicitly cleared. -/
theorem C8_modify_position_fields (st : PaperState) (symbol side : String) (p : Position)
    (sl tp ts : Option ℚ)
    (hget : dictGet? (dictKey symbol side) st.positions = some p) :
    (∃ p', (modify_paper_position st symbol side sl tp ts).1 = some p'
      ∧ dictGet? (dictKey symbol side)
          (modify_paper_position st symbol side sl tp ts).2.positions = some p'
      ∧ (sl = none → p'.stop_loss = p.stop_loss)
      ∧ (tp = none → p'.take_profit = p.take_profit)
      ∧ (ts = none → p'.trailing_stop = p.trailing_stop)
      ∧ (∀ v, sl = some v → p'.stop_loss = some v)
      ∧ (∀ v, tp = some v → p'.take_profit = some v)
      ∧ (∀ v, ts = some v → p'.trailing_stop = some v)
      ∧ p'.size = p.size ∧ p'.entry_price = p.entry_price
      ∧ p'.symbol = p.symbol ∧ p'.side = p.side)
    ∧ (∀ orders : List StopOrder,
        modify_position_live_orders orders sl tp ts
          = set_stop_loss_take_profit_orders sl tp ts) := by
  constructor
  · simp only [modify_paper_position]
    rw [hget]
    dsimp only
    refine ⟨_, rfl, dictGet?_insert_self _ _ _, ?_, ?_, ?_, ?_, ?_, ?_, rfl, rfl, rfl, rfl⟩
    · intro h; rw [h]
    · intro h; rw [h]
    · intro h; rw [h]
    · intro v h; rw [h]
    · intro v h; rw [h]
    · intro v h; rw [h]
  · intro orders
    rfl

/-- C8 (witness of the amended claim): modifying the stored long position
with only `stop_loss=96` supplied sets the stop to 96 and leaves
`take_profit` and `trailing_stop` as they were. -/
theorem C8_modify_position_fields_witness :
    dictGet? (dictKey "BTCUSDT" "long") paperStW.positions = some posLongEx
    ∧ ∃ p', (modify_paper_position paperStW "BTCUSDT" "long" (some 96) none none).1 = some p'
        ∧ p'.stop_loss = some 96
        ∧ p'.take_profit = posLongEx.take_profit
        ∧ p'.trailing_stop = posLongEx.trailing_stop
        ∧ p'.size = posLongEx.size := by
  obtain ⟨⟨p', h1, _, _, htp, hts, hsl, _, _, hsz, _⟩, _⟩ :=
    C8_modify_position_fields paperStW "BTCUSDT" "long" posLongEx (some 96) none none
      (by decide)
  exact ⟨by decide, p', h1, hsl 96 rfl, htp rfl, hts rfl, hsz⟩

/-- C9: in live mode a non-forced refresh issues a venue query exactly when
the elapsed time since the last refresh is at least the TTL; in paper mode
no venue query is ever issued; a successful live refresh rebuilds the keyed
map keeping only venue entries with size > 0; and in a sequence of three
non-forced refreshes at times t1, t2 (within TTL of t1), t3 (at least TTL
after t1), exactly the first and third issue venue queries. -/
theorem C9_refresh_ttl (i : ℚ) (pp : List Position) :
    (∀ (st : PositionStore) (now : ℚ) (venue : Option (List VenuePos)),
      (update_positions i false pp st false now venue).2 = true
        ↔ i ≤ now - st.last_update_time)
    ∧ (∀ (st : PositionStore) (force : Bool) (now : ℚ) (venue : Option (List VenuePos)),
        (update_positions i true pp st force now venue).2 = false)
    ∧ (∀ (st : PositionStore) (now : ℚ) (lst : List VenuePos), i ≤ now - st.last_update_time →
        (update_positions i false pp st false now (some lst)).1.positions = rebuildPositions lst
        ∧ ∀ p ∈ rebuildPositions lst, 0 < p.size)
    ∧ (∀ (st : PositionStore) (t1 t2 t3 : ℚ) (v1 v2 v3 : Option (List VenuePos)),
        i ≤ t1 - st.last_update_time → t2 - t1 < i → i ≤ t3 - t1 →
        (update_positions i false pp st false t1 v1).2 = true
        ∧ (update_positions i false pp
            ((update_positions i false pp st false t1 v1).1) false t2 v2).2 = false
        ∧ (update_positions i false pp
            ((update_positions i false pp
              ((update_positions i false pp st false t1 v1).1) false t2 v2).1)
            false t3 v3).2 = true) := by
  have hq : ∀ (st : PositionStore) (now : ℚ) (venue : Option (List VenuePos)),
      (update_positions i false pp st false now venue).2 = true
        ↔ i ≤ now - st.last_update_time := by
    intro st now venue
    unfold update_positions
    by_cases h : i ≤ now - st.last_update_time
    · rw [if_pos (Or.inr h)]
      cases venue <;> simp [h]
    · rw [if_neg (by simp [h])]
      simp [h]
  have hlast : ∀ (st : PositionStore) (now : ℚ) (venue : Option (List VenuePos)),
      i ≤ now - st.last_update_time →
      (update_positions i false pp st false now venue).1.last_update_time = now := by
    intro st now venue h
    unfold update_positions
    rw [if_pos (Or.inr h)]
    cases venue <;> rfl
  refine ⟨hq, ?_, ?_, ?_⟩
  · intro st force now venue
    unfold update_positions
    split_ifs <;> first | rfl | simp_all
  · intro st now lst h
    constructor
    · unfold update_positions
      rw [if_pos (Or.inr h)]
      rfl
    · intro p hp
      rcases List.mem_map.mp hp with ⟨vp, hvp, rfl⟩
      rcases List.mem_filter.mp hvp with ⟨_, hsz⟩
      simpa [positionFromVenue] using of_decide_eq_true hsz
  · intro st t1 t2 t3 v1 v2 v3 h1 h2 h3
    have hst1 := hlast st t1 v1 h1
    refine ⟨(hq st t1 v1).mpr h1, ?_⟩
    generalize hg : (update_positions i false pp st false t1 v1).1 = st1 at hst1 ⊢
    have hcond : ¬ (false = true ∨ i ≤ t2 - st1.last_update_time) := by
      rw [hst1]
      push_neg
      exact ⟨by simp, by linarith⟩
    have hst2 : update_positions i false pp st1 false t2 v2 = (st1, false) := by
      unfold update_positions
      rw [if_neg hcond]
    refine ⟨?_, ?_⟩
    · rw [hst2]
    · rw [hst2]
      exact (hq st1 t3 v3).mpr (by rw [hst1]; linarith)

/-- C9 (witness): with the default 5-second TTL, an empty store last
refreshed at time 0, and non-forced refreshes at times 100, 103 and 106:
the first and third refresh issue venue queries, the second does not; in
paper mode no query is issued. -/
theorem C9_refresh_ttl_witness :
    cache_update_interval ≤ (100:ℚ) - storeW.last_update_time
    ∧ (update_positions cache_update_interval false [] storeW false 100 none).2 = true
    ∧ (update_positions cache_update_interval false []
        ((update_positions cache_update_interval false [] storeW false 100 none).1)
        false 103 none).2 = false
    ∧ (update_positions cache_update_interval false []
        ((update_positions cache_update_interval false []
          ((update_positions cache_update_interval false [] storeW false 100 none).1)
          false 103 none).1) false 106 none).2 = true
    ∧ (update_positions cache_update_interval true [] storeW false 100 none).2 = false := by
  have h := C9_refresh_ttl cache_update_interval []
  have hs := h.2.2.2 storeW 100 103 106 none none none
    (by norm_num [cache_update_interval, storeW])
    (by norm_num [cache_update_interval])
    (by norm_num [cache_update_interval])
  exact ⟨by norm_num [cache_update_interval, storeW], hs.1, hs.2.1, hs.2.2,
    h.2.1 storeW false 100 none⟩

end BotBybit
